import Mathlib

/-!
Verification of the forward-pass semantics of the custom Keras-style layers
in `DeepLearning/RNN/rnn.py`: the scaled token `Embedding`, the vanilla
`RNN` recurrent cell, and the `BiDirectional` wrapper.

Modelling conventions (shallow embedding):
* Scalars are `ℚ` (a computable stand-in for the framework's floats).
* A feature vector is a `List ℚ`; a weight matrix is a list of rows.
* The recurrence is modelled per batch element: the batch axis of the
  tensors is pointwise-mapped by every operation involved, so one batch
  element carries all the information the claims are about.
* A Python list of per-time-step tensors becomes a `List Vec` indexed by
  time, and `K.reverse (·, 1)` on such a sequence is `List.reverse`.
* `K.softmax` is the normalized exponential over the last (feature) axis;
  its transcendental exponential is passed in as an explicit function
  argument `exp : ℚ → ℚ`, keeping every definition computable.
* Raised `ValueError`s become `Except.error` with the source's message.
-/

namespace DeepNLP

abbrev Vec := List ℚ

abbrev Mat := List (List ℚ)

/-- Dot product of two vectors (`zipWith` truncates to the common length,
matching well-shaped tensor contractions). -/
def dot (v w : Vec) : ℚ := (List.zipWith (fun a b => a * b) v w).sum

/-- Column `j` of a matrix stored as a list of rows. -/
def matColumn (M : Mat) (j : Nat) : Vec := M.map (fun r => r.getD j 0)

/-- Row-vector–matrix product `v · M`, as computed by `K.dot` on a
`(1, n)`-shaped tensor and an `(n, m)` weight: entry `j` is the dot
product of `v` with column `j`, and the output width is the width of the
matrix's rows. -/
def vecMatMul (v : Vec) (M : Mat) : Vec :=
  (List.range (M.headD []).length).map (fun j => dot v (matColumn M j))

/-- Element-wise sum (`+` on equal-shaped tensors). -/
def vecAdd (v w : Vec) : Vec := List.zipWith (fun a b => a + b) v w

/-- Element-wise product (`*` on equal-shaped tensors). -/
def vecMul (v w : Vec) : Vec := List.zipWith (fun a b => a * b) v w

/-- Model of `K.zeros((1, n))`, per batch element: the zero vector of width `n`. -/
def zeros (n : Nat) : Vec := List.replicate n (0 : ℚ)

/-- Model of `K.softmax` over the last axis: the standard normalized exponential,
with the exponential function supplied explicitly. -/
def softmax (exp : ℚ → ℚ) (v : Vec) : Vec :=
  let e := v.map exp
  e.map (fun x => x / e.sum)

/-- Model of `K.cast(·, 'int32')` on a real scalar: truncation toward zero
(`Int` division `num / den` truncates toward zero). -/
def cast32 (q : ℚ) : Int := q.num / q.den

/-- The `Embedding` layer: a `vocab_size × model_dim` table of learned
vectors. -/
structure Embedding where
  vocabSize : Nat
  modelDim : Nat
  embeddings : Mat

/-- Forward pass `Embedding.call`: cast the (possibly non-integer-typed) inputs to
integer ids, gather the table rows, and scale by `model_dim ** 0.5`.
The scalar `model_dim ** 0.5` is irrational in general, so it is passed
in as `sqrtModelDim`; the theorems pin it down by
`sqrtModelDim * sqrtModelDim = modelDim`. -/
def Embedding.call (emb : Embedding) (sqrtModelDim : ℚ)
    (inputs : List (List ℚ)) : List (List Vec) :=
  inputs.map (fun seq => seq.map (fun q =>
    (emb.embeddings.getD (cast32 q).toNat []).map (fun x => x * sqrtModelDim)))

/-- The `RNN` layer's configuration and parameters.  `activation` is the
stored `self._activation`: `none` models the no-activation-configured
case the source guards with `if self._activation is not None`. -/
structure RNN where
  kernelDim : Nat
  activation : Option (Vec → Vec)
  returnOutputs : Bool
  returnStates : Bool
  useBias : Bool
  U : Mat
  W : Mat
  b : Vec
  V : Mat
  c : Vec

/-- The possible shapes of `RNN.call`'s Python return value: a single
final state, a sequence (`ots` or `hts`), or the pair `(ots, hts)`. -/
inductive RNNOut where
  | single (h : Vec)
  | seq (s : List Vec)
  | pair (ots hts : List Vec)
deriving DecidableEq

/-- One loop iteration of `RNN.call`: from `(h_t, ots, hts)` and the step
input `x_t`, compute `a_t = x_t · U + h_t · W (+= b if use_bias)`; if an
activation is configured, update `h_t = activation(a_t)` and append it to
`hts`; if `return_outputs`, append `softmax(h_t · V (+= c if use_bias))`
to `ots` (using the possibly-stale `h_t` when no activation is set, as
the source does). -/
def RNN.step (cell : RNN) (exp : ℚ → ℚ) (st : Vec × List Vec × List Vec)
    (x : Vec) : Vec × List Vec × List Vec :=
  let a0 := vecAdd (vecMatMul x cell.U) (vecMatMul st.1 cell.W)
  let a := if cell.useBias then vecAdd a0 cell.b else a0
  let hst : Vec × List Vec :=
    match cell.activation with
    | some f => (f a, st.2.2 ++ [f a])
    | none => (st.1, st.2.2)
  let ots :=
    if cell.returnOutputs then
      let o0 := vecMatMul hst.1 cell.V
      let o := if cell.useBias then vecAdd o0 cell.c else o0
      st.2.1 ++ [softmax exp o]
    else st.2.1
  (hst.1, ots, hst.2)

/-- The loop of `RNN.call`: fold `RNN.step` over the time axis starting
from `h_t = K.zeros((1, kernel_dim))` and empty `ots`, `hts`. -/
def RNN.callState (cell : RNN) (exp : ℚ → ℚ) (inputs : List Vec) :
    Vec × List Vec × List Vec :=
  inputs.foldl (cell.step exp) (zeros cell.kernelDim, [], [])

/-- Forward pass `RNN.call`: run the recurrence, then select the result exactly as the
source's cascade of assignments does (`outputs = h_t`, overridden by
`ots` if `return_outputs`, by `hts` if `return_states`, by the pair if
both). -/
def RNN.call (cell : RNN) (exp : ℚ → ℚ) (inputs : List Vec) : RNNOut :=
  let s := cell.callState exp inputs
  if cell.returnOutputs && cell.returnStates then .pair s.2.1 s.2.2
  else if cell.returnStates then .seq s.2.2
  else if cell.returnOutputs then .seq s.2.1
  else .single s.1

/-- The merged result of the bidirectional wrapper: one sequence, or the
unmerged pair when `merge_mode` is `None`. -/
inductive BiOut where
  | seq (s : List Vec)
  | pair (fw bw : List Vec)
deriving DecidableEq

/-- Message of the `ValueError` raised by `BiDirectional.__init__` for an
invalid merge mode (a constant: it does not mention the offending value). -/
def invalidMergeMsg : String :=
  "Invalid merge mode. Merge mode should be one of \x7b\"sum\", \"mul\", \"ave\", \"concat\", None\x7d"

/-- Message of the `ValueError` raised by `BiDirectional.call` when the
wrapped cell does not return states. -/
def invalidStatesMsg : String :=
  "BiDirectional rnn cell must set `_return_states` to True."

/-- Message of the (unreachable) final `else` of `BiDirectional.call`. -/
def unrecognizedMsg (m : String) : String :=
  "Unrecognized value for argument merge_mode: " ++ m

/-- The merge modes accepted by `BiDirectional.__init__`
(`['sum', 'mul', 'ave', 'concat', None]`). -/
def validModes : List (Option String) :=
  [some ("sum"), some ("mul"), some ("ave"), some ("concat"), none]

/-- The `BiDirectional` wrapper's state after construction. -/
structure BiDirectional where
  rnnCell : RNN
  mergeMode : Option String
  returnOutputs : Bool
  returnStates : Bool

/-- Constructor `BiDirectional.__init__`: reject a merge mode outside the five valid
values, otherwise store the cell, the merge mode and the cell's flags. -/
def BiDirectional.mk' (cell : RNN) (mergeMode : Option String) :
    Except String BiDirectional :=
  if mergeMode ∈ validModes then
    .ok { rnnCell := cell
          mergeMode := mergeMode
          returnOutputs := cell.returnOutputs
          returnStates := cell.returnStates }
  else .error invalidMergeMsg

/-- The tuple destructuring `_, fw_states = rnn_fw_outputs` /
`fw_states = rnn_fw_outputs` in `BiDirectional.call`: keep the
state-sequence component of the inner cell's result.  (When
`return_states` is set the cell returns `.seq hts` or `.pair ots hts`;
`.single` cannot occur then.) -/
def statesOf : RNNOut → List Vec
  | .pair _ hts => hts
  | .seq s => s
  | .single h => [h]

/-- The pair of state sequences `BiDirectional.call` merges:
`fw_states, bw_states = K.reverse(fw_states, 1), K.reverse(bw_states, 1)`
— the source reverses BOTH the forward and the backward pass's states. -/
def BiDirectional.passStates (bi : BiDirectional) (exp : ℚ → ℚ)
    (inputs : List Vec) : List Vec × List Vec :=
  let fwS := statesOf (bi.rnnCell.call exp inputs)
  let bwS := statesOf (bi.rnnCell.call exp inputs.reverse)
  (fwS.reverse, bwS.reverse)

/-- Forward pass `BiDirectional.call`: run the cell on the input and on the
time-reversed input, fail unless the cell returns states, reverse both
state sequences, and merge following the source's `if`/`elif` chain on
the merge mode. -/
def BiDirectional.call (bi : BiDirectional) (exp : ℚ → ℚ)
    (inputs : List Vec) : Except String BiOut :=
  if bi.returnStates then
    let p := bi.passStates exp inputs
    if bi.mergeMode = some ("concat") then
      .ok (.seq (List.zipWith (fun a b => a ++ b) p.1 p.2))
    else if bi.mergeMode = some ("sum") then
      .ok (.seq (List.zipWith vecAdd p.1 p.2))
    else if bi.mergeMode = some ("ave") then
      .ok (.seq (List.zipWith (fun a b => (vecAdd a b).map (fun x => x / 2)) p.1 p.2))
    else if bi.mergeMode = some ("mul") then
      .ok (.seq (List.zipWith vecMul p.1 p.2))
    else if bi.mergeMode = none then
      .ok (.pair p.1 p.2)
    else
      .error (unrecognizedMsg (bi.mergeMode.getD ("None")))
  else .error invalidStatesMsg

/-- The pre-activation value of §4.2 of the specification:
`a_t = x_t · U + h_{t-1} · W (+ b if use_bias)`. -/
def specA (cell : RNN) (h x : Vec) : Vec :=
  if cell.useBias then
    vecAdd (vecAdd (vecMatMul x cell.U) (vecMatMul h cell.W)) cell.b
  else vecAdd (vecMatMul x cell.U) (vecMatMul h cell.W)

/-- The sequence `h_0, …, h_{T-1}` of the specification's recurrence
`h_t = activation(a_t)`, starting from carry `h` (`h_{-1}`). -/
def specStates (cell : RNN) (f : Vec → Vec) (h : Vec) : List Vec → List Vec
  | [] => []
  | x :: xs =>
      let ht := f (specA cell h x)
      ht :: specStates cell f ht xs

/-- The specification's per-step output
`o_t = softmax(h_t · V (+ c if use_bias))`. -/
def specOut (cell : RNN) (exp : ℚ → ℚ) (h : Vec) : Vec :=
  softmax exp (if cell.useBias then vecAdd (vecMatMul h cell.V) cell.c
               else vecMatMul h cell.V)

/-! ### Concrete fixtures used by witnesses and counterexamples -/

/-- The identity (linear) activation. -/
def idAct : Vec → Vec := fun v => v

/-- A concrete stand-in for the exponential in witness computations. -/
def idExp : ℚ → ℚ := fun x => x

/-- A width-1 cell with both result flags set and biases. -/
def cellC1 : RNN :=
  { kernelDim := 1, activation := some idAct, returnOutputs := true,
    returnStates := true, useBias := true,
    U := [[1]], W := [[1]], b := [0], V := [[1]], c := [0] }

/-- A width-1 cell with neither result flag set. -/
def cellPlain : RNN :=
  { kernelDim := 1, activation := some idAct, returnOutputs := false,
    returnStates := false, useBias := false,
    U := [[1]], W := [[1]], b := [], V := [], c := [] }

/-- A wrapper around `cellPlain` (whose `return_states` is `False`). -/
def biPlainNone : BiDirectional :=
  { rnnCell := cellPlain, mergeMode := none,
    returnOutputs := false, returnStates := false }

/-- A state-returning cell with no activation configured. -/
def cellC8 : RNN :=
  { kernelDim := 1, activation := none, returnOutputs := false,
    returnStates := true, useBias := false,
    U := [[1]], W := [[1]], b := [], V := [], c := [] }

/-- A width-2 identity-activation cell without bias. -/
def cellC9 : RNN :=
  { kernelDim := 2, activation := some idAct, returnOutputs := false,
    returnStates := true, useBias := false,
    U := [[3, 4]], W := [[1, 2], [5, 6]], b := [], V := [], c := [] }

/-- A width-1 state-returning cell whose state at step `t` is exactly the
input `x_t` (`U = [[1]]`, `W = [[0]]`, identity activation, no bias). -/
def rnnC2 : RNN :=
  { kernelDim := 1, activation := some idAct, returnOutputs := false,
    returnStates := true, useBias := false,
    U := [[1]], W := [[0]], b := [], V := [], c := [] }

/-- Wrapper around `rnnC2` with `merge_mode=None`. -/
def biC2 : BiDirectional :=
  { rnnCell := rnnC2, mergeMode := none,
    returnOutputs := false, returnStates := true }

/-- A concrete embedding table: `vocab_size=2`, `model_dim=4`. -/
def embC4 : Embedding :=
  { vocabSize := 2, modelDim := 4,
    embeddings := [[1, 2, 3, 4], [5, 6, 7, 8]] }

/-- A width-1 state-returning cell with bias, for the width theorem. -/
def cellC7 : RNN :=
  { kernelDim := 1, activation := some idAct, returnOutputs := false,
    returnStates := true, useBias := true,
    U := [[1]], W := [[1]], b := [0], V := [], c := [] }

/-- Wrapper around `cellC7` with `merge_mode="sum"`. -/
def biC7 : BiDirectional :=
  { rnnCell := cellC7, mergeMode := some ("sum"),
    returnOutputs := false, returnStates := true }

end DeepNLP

namespace DeepNLP

/-! ### Helper lemmas -/

theorem getLastD_cons_getD {α : Type} :
    ∀ (l : List α) (a d : α), (a :: l).getLast?.getD d = l.getLast?.getD a := by
  intro l
  induction l with
  | nil => intro a d; rfl
  | cons b l ih =>
      intro a d
      rw [List.getLast?_cons_cons, ih b d, ih b a]

theorem foldl_step_spec (cell : RNN) (f : Vec → Vec) (exp : ℚ → ℚ)
    (hact : cell.activation = some f) (xs : List Vec) :
    ∀ (h : Vec) (os hs : List Vec),
      xs.foldl (cell.step exp) (h, os, hs) =
        ((specStates cell f h xs).getLastD h,
         os ++ (if cell.returnOutputs then
                  (specStates cell f h xs).map (specOut cell exp) else []),
         hs ++ specStates cell f h xs) := by
  induction xs with
  | nil => intro h os hs; simp [specStates]
  | cons x xs ih =>
      intro h os hs
      rw [List.foldl_cons]
      have hstep : cell.step exp (h, os, hs) x =
          (f (specA cell h x),
           (if cell.returnOutputs then
              os ++ [specOut cell exp (f (specA cell h x))] else os),
           hs ++ [f (specA cell h x)]) := by
        simp only [RNN.step, specA, specOut, hact]
      rw [hstep, ih]
      cases hro : cell.returnOutputs <;>
        simp [specStates, hro, getLastD_cons_getD, List.append_assoc]

theorem callState_spec (cell : RNN) (f : Vec → Vec) (exp : ℚ → ℚ)
    (hact : cell.activation = some f) (inputs : List Vec) :
    cell.callState exp inputs =
      ((specStates cell f (zeros cell.kernelDim) inputs).getLastD
         (zeros cell.kernelDim),
       (if cell.returnOutputs then
          (specStates cell f (zeros cell.kernelDim) inputs).map
            (specOut cell exp) else []),
       specStates cell f (zeros cell.kernelDim) inputs) := by
  unfold RNN.callState
  rw [foldl_step_spec cell f exp hact]
  simp

theorem foldl_step_none (cell : RNN) (exp : ℚ → ℚ)
    (hact : cell.activation = none) (xs : List Vec) :
    ∀ (h : Vec) (os hs : List Vec),
      xs.foldl (cell.step exp) (h, os, hs) =
        (h,
         os ++ (if cell.returnOutputs then
                  List.replicate xs.length (specOut cell exp h) else []),
         hs) := by
  induction xs with
  | nil => intro h os hs; simp
  | cons x xs ih =>
      intro h os hs
      rw [List.foldl_cons]
      have hstep : cell.step exp (h, os, hs) x =
          (h,
           (if cell.returnOutputs then os ++ [specOut cell exp h] else os),
           hs) := by
        simp only [RNN.step, specOut, hact]
      rw [hstep, ih]
      cases hro : cell.returnOutputs <;>
        simp [hro, List.replicate_succ, List.append_assoc]

theorem vecMatMul_length (v : Vec) (M : Mat) :
    (vecMatMul v M).length = (M.headD []).length := by
  simp [vecMatMul]

theorem vecAdd_length (v w : Vec) :
    (vecAdd v w).length = min v.length w.length := by
  simp [vecAdd]

theorem dot_replicate_zero : ∀ (n : Nat) (w : Vec),
    dot (List.replicate n 0) w = 0 := by
  intro n
  induction n with
  | zero => intro w; simp [dot]
  | succ n ih =>
      intro w
      cases w with
      | nil => simp [dot]
      | cons c w =>
          have := ih w
          simp [dot, List.replicate_succ] at this ⊢
          exact this

theorem vecMatMul_zeros (n : Nat) (M : Mat) :
    vecMatMul (zeros n) M = zeros (M.headD []).length := by
  simp [vecMatMul, zeros, dot_replicate_zero]

theorem zipWith_replicate_eq {α : Type} (f : α → α → α) (n : Nat) (a b : α) :
    List.zipWith f (List.replicate n a) (List.replicate n b) =
      List.replicate n (f a b) := by
  induction n with
  | zero => rfl
  | succ n ih => simp [List.replicate_succ, ih]

theorem vecAdd_zeros (n : Nat) : vecAdd (zeros n) (zeros n) = zeros n := by
  simp [vecAdd, zeros, zipWith_replicate_eq]

theorem specA_zeros (cell : RNN) (n : Nat)
    (hbias : cell.useBias = false)
    (hU : (cell.U.headD []).length = cell.kernelDim)
    (hW : (cell.W.headD []).length = cell.kernelDim) :
    specA cell (zeros cell.kernelDim) (zeros n) = zeros cell.kernelDim := by
  rw [specA, hbias]
  simp only [Bool.false_eq_true, if_false]
  rw [vecMatMul_zeros, vecMatMul_zeros, hU, hW, vecAdd_zeros]

theorem specStates_length (cell : RNN) (f : Vec → Vec) :
    ∀ (xs : List Vec) (h : Vec), (specStates cell f h xs).length = xs.length := by
  intro xs
  induction xs with
  | nil => intro h; rfl
  | cons x xs ih => intro h; simp [specStates, ih]

theorem specA_length (cell : RNN) (h x : Vec)
    (hU : (cell.U.headD []).length = cell.kernelDim)
    (hW : (cell.W.headD []).length = cell.kernelDim)
    (hb : cell.useBias = true → cell.b.length = cell.kernelDim) :
    (specA cell h x).length = cell.kernelDim := by
  rw [List.headD_eq_head?] at hU hW
  cases hbias : cell.useBias with
  | false => simp [specA, hbias, vecAdd_length, vecMatMul_length, hU, hW]
  | true =>
      simp [specA, hbias, vecAdd_length, vecMatMul_length, hU, hW, hb hbias]

theorem specStates_width (cell : RNN) (f : Vec → Vec)
    (hf : ∀ v, (f v).length = v.length)
    (hU : (cell.U.headD []).length = cell.kernelDim)
    (hW : (cell.W.headD []).length = cell.kernelDim)
    (hb : cell.useBias = true → cell.b.length = cell.kernelDim) :
    ∀ (xs : List Vec) (h : Vec) (v : Vec),
      v ∈ specStates cell f h xs → v.length = cell.kernelDim := by
  intro xs
  induction xs with
  | nil => intro h v hv; simp [specStates] at hv
  | cons x xs ih =>
      intro h v hv
      simp only [specStates, List.mem_cons] at hv
      rcases hv with hv | hv
      · subst hv
        rw [hf, specA_length cell h x hU hW hb]
      · exact ih _ v hv

theorem statesOf_call (cell : RNN) (exp : ℚ → ℚ) (inputs : List Vec)
    (hrs : cell.returnStates = true) :
    statesOf (cell.call exp inputs) = (cell.callState exp inputs).2.2 := by
  cases hro : cell.returnOutputs <;> simp [RNN.call, hro, hrs, statesOf]

theorem mk'_inversion (cell : RNN) (mm : Option String) (bi : BiDirectional)
    (hmk : BiDirectional.mk' cell mm = .ok bi) :
    mm ∈ validModes ∧ bi.rnnCell = cell ∧ bi.mergeMode = mm ∧
      bi.returnOutputs = cell.returnOutputs ∧
      bi.returnStates = cell.returnStates := by
  unfold BiDirectional.mk' at hmk
  split at hmk
  case isTrue hmem => cases hmk; exact ⟨hmem, rfl, rfl, rfl, rfl⟩
  case isFalse => exact absurd hmk (by simp)

theorem mem_zipWith_exists {α : Type} (f : α → α → α) :
    ∀ (l₁ l₂ : List α) (v : α), v ∈ List.zipWith f l₁ l₂ →
      ∃ a b, a ∈ l₁ ∧ b ∈ l₂ ∧ v = f a b := by
  intro l₁
  induction l₁ with
  | nil => intro l₂ v hv; simp at hv
  | cons a l₁ ih =>
      intro l₂ v hv
      cases l₂ with
      | nil => simp at hv
      | cons b l₂ =>
          simp only [List.zipWith_cons_cons, List.mem_cons] at hv
          rcases hv with hv | hv
          · exact ⟨a, b, List.mem_cons_self a l₁, List.mem_cons_self b l₂, hv⟩
          · obtain ⟨a', b', ha, hb, hv⟩ := ih l₂ v hv
            exact ⟨a', b', List.mem_cons_of_mem a ha, List.mem_cons_of_mem b hb, hv⟩

theorem rangeOne : List.range 1 = [0] := rfl

theorem vecMul_length (v w : Vec) :
    (vecMul v w).length = min v.length w.length := by
  simp [vecMul]

theorem getD_map_lt {α β : Type} (f : α → β) (l : List α) (i : Nat)
    (hi : i < l.length) (d : β) : (l.map f).getD i d = f l[i] := by
  rw [List.getD_eq_getElem?_getD, List.getElem?_map,
    List.getElem?_eq_getElem hi]
  rfl

theorem callState_snd_snd (cell : RNN) (f : Vec → Vec) (exp : ℚ → ℚ)
    (hact : cell.activation = some f) (inputs : List Vec) :
    (cell.callState exp inputs).2.2 =
      specStates cell f (zeros cell.kernelDim) inputs := by
  rw [callState_spec cell f exp hact inputs]

theorem passStates_eq (bi : BiDirectional) (cell : RNN)
    (hcell : bi.rnnCell = cell) (hrs : cell.returnStates = true)
    (exp : ℚ → ℚ) (inputs : List Vec) :
    bi.passStates exp inputs =
      (((cell.callState exp inputs).2.2).reverse,
       ((cell.callState exp inputs.reverse).2.2).reverse) := by
  rw [BiDirectional.passStates, hcell,
    statesOf_call cell exp inputs hrs,
    statesOf_call cell exp inputs.reverse hrs]

/-! ### Claim theorems -/

/-- C1: For every input batch, the RNN cell's forward pass computes
exactly the specified recurrence: starting from `h_{-1} = 0`, at each
step `a_t = x_t · U + h_{t-1} · W`, the bias `b` is added iff `use_bias`,
`h_t = activation(a_t)`, and when `return_outputs` is set
`o_t = softmax(h_t · V + c-if-use_bias)` over the feature axis:
the computed triple (final state, `ots`, `hts`) matches the
specification-side recurrence `specStates` / `specOut`. -/
theorem C1_recurrence_correct (cell : RNN) (f : Vec → Vec) (exp : ℚ → ℚ)
    (hact : cell.activation = some f) (inputs : List Vec) :
    cell.callState exp inputs =
      ((specStates cell f (zeros cell.kernelDim) inputs).getLastD
         (zeros cell.kernelDim),
       (if cell.returnOutputs then
          (specStates cell f (zeros cell.kernelDim) inputs).map
            (specOut cell exp) else []),
       specStates cell f (zeros cell.kernelDim) inputs) :=
  callState_spec cell f exp hact inputs

/-- Witness for C1 at a concrete one-step input. -/
theorem C1_witness :
    cellC1.callState idExp [[(1 : ℚ)]] =
      ((specStates cellC1 idAct (zeros cellC1.kernelDim) [[(1 : ℚ)]]).getLastD
         (zeros cellC1.kernelDim),
       (if cellC1.returnOutputs then
          (specStates cellC1 idAct (zeros cellC1.kernelDim) [[(1 : ℚ)]]).map
            (specOut cellC1 idExp) else []),
       specStates cellC1 idAct (zeros cellC1.kernelDim) [[(1 : ℚ)]]) :=
  C1_recurrence_correct cellC1 idAct idExp rfl [[(1 : ℚ)]]

/-- C3: The cell's return value follows the specified priority: both
flags → the pair `(ots, hts)`; `return_states` only → `hts`;
`return_outputs` only → `ots`; neither → the final hidden state
(the last element of the state sequence, `h_{-1} = 0` for empty input). -/
theorem C3_result_selection (cell : RNN) (f : Vec → Vec) (exp : ℚ → ℚ)
    (hact : cell.activation = some f) (inputs : List Vec) :
    cell.call exp inputs =
      if cell.returnOutputs && cell.returnStates then
        RNNOut.pair (cell.callState exp inputs).2.1 (cell.callState exp inputs).2.2
      else if cell.returnStates then
        RNNOut.seq (cell.callState exp inputs).2.2
      else if cell.returnOutputs then
        RNNOut.seq (cell.callState exp inputs).2.1
      else
        RNNOut.single
          ((cell.callState exp inputs).2.2.getLastD (zeros cell.kernelDim)) := by
  have hcs := callState_spec cell f exp hact inputs
  unfold RNN.call
  rw [hcs]

/-- Witness for C3 at a concrete cell with neither flag set. -/
theorem C3_witness :
    cellPlain.call idExp [[(1 : ℚ)], [2]] =
      if cellPlain.returnOutputs && cellPlain.returnStates then
        RNNOut.pair (cellPlain.callState idExp [[(1 : ℚ)], [2]]).2.1
          (cellPlain.callState idExp [[(1 : ℚ)], [2]]).2.2
      else if cellPlain.returnStates then
        RNNOut.seq (cellPlain.callState idExp [[(1 : ℚ)], [2]]).2.2
      else if cellPlain.returnOutputs then
        RNNOut.seq (cellPlain.callState idExp [[(1 : ℚ)], [2]]).2.1
      else
        RNNOut.single
          ((cellPlain.callState idExp [[(1 : ℚ)], [2]]).2.2.getLastD
            (zeros cellPlain.kernelDim)) :=
  C3_result_selection cellPlain idAct idExp rfl [[(1 : ℚ)], [2]]

/-- C8: When no activation function is configured, hidden states are
never appended: the state sequence is empty for every input, and a call
with `return_states` requested returns an empty sequence (alone, or as
the second component of the pair). -/
theorem C8_no_activation_empty_states (cell : RNN) (exp : ℚ → ℚ)
    (inputs : List Vec) (hact : cell.activation = none) :
    (cell.callState exp inputs).2.2 = [] ∧
    (cell.returnStates = true → cell.returnOutputs = false →
      cell.call exp inputs = RNNOut.seq []) ∧
    (cell.returnStates = true → cell.returnOutputs = true →
      cell.call exp inputs =
        RNNOut.pair (cell.callState exp inputs).2.1 []) := by
  have hcs : cell.callState exp inputs =
      (zeros cell.kernelDim,
       (if cell.returnOutputs then
          List.replicate inputs.length
            (specOut cell exp (zeros cell.kernelDim)) else []),
       []) := by
    unfold RNN.callState
    rw [foldl_step_none cell exp hact]
    simp
  refine ⟨by rw [hcs], ?_, ?_⟩
  · intro hrs hro; simp [RNN.call, hrs, hro, hcs]
  · intro hrs hro; simp [RNN.call, hrs, hro, hcs]

/-- Witness for C8: a two-step input yields an empty state sequence. -/
theorem C8_witness :
    (cellC8.callState idExp [[(5 : ℚ)], [7]]).2.2 = [] ∧
    (cellC8.returnStates = true → cellC8.returnOutputs = false →
      cellC8.call idExp [[(5 : ℚ)], [7]] = RNNOut.seq []) ∧
    (cellC8.returnStates = true → cellC8.returnOutputs = true →
      cellC8.call idExp [[(5 : ℚ)], [7]] =
        RNNOut.pair (cellC8.callState idExp [[(5 : ℚ)], [7]]).2.1 []) :=
  C8_no_activation_empty_states cellC8 idExp [[(5 : ℚ)], [7]] rfl

/-- C9: With the identity activation and no bias, an all-zero input
sequence of any length `T` yields `h_t = 0` at every time step. -/
theorem C9_zero_fixed_point (cell : RNN) (exp : ℚ → ℚ) (n T : Nat)
    (hact : cell.activation = some (fun v => v))
    (hbias : cell.useBias = false)
    (hU : (cell.U.headD []).length = cell.kernelDim)
    (hW : (cell.W.headD []).length = cell.kernelDim) :
    (cell.callState exp (List.replicate T (zeros n))).2.2 =
      List.replicate T (zeros cell.kernelDim) := by
  have key : ∀ (T' : Nat),
      specStates cell (fun v => v) (zeros cell.kernelDim)
        (List.replicate T' (zeros n)) =
        List.replicate T' (zeros cell.kernelDim) := by
    intro T'
    induction T' with
    | zero => rfl
    | succ T' ih =>
        rw [List.replicate_succ, List.replicate_succ]
        simp only [specStates]
        rw [specA_zeros cell n hbias hU hW, ih]
  rw [callState_spec cell (fun v => v) exp hact (List.replicate T (zeros n))]
  exact key T

/-- Witness for C9 at width 2 and a length-2 all-zero input. -/
theorem C9_witness :
    (cellC9.callState idExp (List.replicate 2 (zeros 1))).2.2 =
      List.replicate 2 (zeros cellC9.kernelDim) :=
  C9_zero_fixed_point cellC9 idExp 1 2 rfl rfl rfl rfl

/-- C5: Invoking the wrapper whose inner cell was configured with
`return_states = False` fails at call time with the InvalidConfiguration
error; with `return_states = True` the call does not raise (it returns a
result). -/
theorem C5_return_states_precondition (cell : RNN) (mm : Option String)
    (bi : BiDirectional) (hmk : BiDirectional.mk' cell mm = .ok bi)
    (exp : ℚ → ℚ) (inputs : List Vec) :
    (cell.returnStates = false →
      bi.call exp inputs = .error invalidStatesMsg) ∧
    (cell.returnStates = true →
      ∃ out, bi.call exp inputs = Except.ok out) := by
  obtain ⟨hmem, hcell, hmmEq, hro, hrs⟩ := mk'_inversion cell mm bi hmk
  constructor
  · intro h
    simp [BiDirectional.call, hrs, h]
  · intro h
    have hbrs : bi.returnStates = true := hrs.trans h
    simp only [BiDirectional.call, hbrs, if_true]
    rw [hmmEq]
    simp only [validModes, List.mem_cons, List.not_mem_nil, or_false] at hmem
    rcases hmem with h1 | h1 | h1 | h1 | h1 <;> rw [h1] <;> simp

/-- Witness for C5: a wrapper over a `return_states = False` cell
errors at call time. -/
theorem C5_witness :
    biPlainNone.call idExp [[(1 : ℚ)]] = .error invalidStatesMsg :=
  (C5_return_states_precondition cellPlain none biPlainNone rfl idExp
    [[(1 : ℚ)]]).1 rfl

/-- C6 (amended): an out-of-set merge mode is rejected at construction
with the InvalidConfiguration error, whose message is a constant that
lists the valid merge modes but does not include the offending value;
the five valid values construct successfully. -/
theorem C6_merge_mode_validation (cell : RNN) (mm : Option String) :
    (mm ∉ validModes →
      BiDirectional.mk' cell mm = .error invalidMergeMsg) ∧
    (mm ∈ validModes →
      ∃ bi, BiDirectional.mk' cell mm = Except.ok bi) := by
  constructor
  · intro h; simp [BiDirectional.mk', h]
  · intro h
    exact ⟨_, by unfold BiDirectional.mk'; rw [if_pos h]⟩

/-- Counterexample for C6 as stated: at the offending value `"xor"` the
constructor raises an error whose message is the same constant as for
any other offending value (here `"zzz"`) and contains no character
`'x'`, so it does not name the offending merge-mode value. -/
theorem C6_counterexample :
    BiDirectional.mk' cellPlain (some ("xor")) = .error invalidMergeMsg ∧
    BiDirectional.mk' cellPlain (some ("zzz")) = .error invalidMergeMsg ∧
    'x' ∉ invalidMergeMsg.data := by
  refine ⟨rfl, rfl, ?_⟩
  decide

/-- Witness for C6 (amended) at `"xor"` (rejected) and `"sum"`
(accepted). -/
theorem C6_witness :
    BiDirectional.mk' cellPlain (some ("xor")) = .error invalidMergeMsg ∧
    (∃ bi, BiDirectional.mk' cellPlain (some ("sum")) = Except.ok bi) :=
  ⟨(C6_merge_mode_validation cellPlain (some ("xor"))).1 (by decide),
   (C6_merge_mode_validation cellPlain (some ("sum"))).2 (by decide)⟩

/-- C10: for every wrapper built by the public constructor, the
call-time "Unrecognized value for argument merge_mode" branch is
unreachable: the only error the forward pass can produce is the
return-states one. -/
theorem C10_unrecognized_branch_unreachable (cell : RNN)
    (mm : Option String) (bi : BiDirectional)
    (hmk : BiDirectional.mk' cell mm = .ok bi)
    (exp : ℚ → ℚ) (inputs : List Vec) (e : String)
    (hcall : bi.call exp inputs = .error e) : e = invalidStatesMsg := by
  obtain ⟨hmem, hcell, hmmEq, hro, hrs⟩ := mk'_inversion cell mm bi hmk
  cases hb : bi.returnStates with
  | false =>
      simp [BiDirectional.call, hb] at hcall
      exact hcall.symm
  | true =>
      simp only [BiDirectional.call, hb, if_true] at hcall
      rw [hmmEq] at hcall
      simp only [validModes, List.mem_cons, List.not_mem_nil, or_false] at hmem
      rcases hmem with h1 | h1 | h1 | h1 | h1 <;> rw [h1] at hcall <;>
        simp at hcall

/-- Witness for C10: on a constructor-built wrapper the only observable
call-time error is the return-states message. -/
theorem C10_witness :
    biPlainNone.call idExp [[(1 : ℚ)]] = Except.error invalidStatesMsg ∧
    invalidStatesMsg = invalidStatesMsg :=
  ⟨rfl,
   C10_unrecognized_branch_unreachable cellPlain none biPlainNone rfl idExp
     [[(1 : ℚ)]] invalidStatesMsg rfl⟩

/-- Counterexample for C2 as stated: for the cell `rnnC2` (whose state
sequence equals its input sequence) on input `[[1], [2]]`, the forward
pass's states are `[[1], [2]]` and the backward pass's are `[[2], [1]]`;
the wrapper returns the pair `([[2], [1]], [[1], [2]])` — the forward
sequence reversed — instead of the claimed pair of the forward sequence
in original order and the reversed backward sequence
`([[1], [2]], [[1], [2]])`. -/
theorem C2_counterexample :
    rnnC2.call idExp [[(1 : ℚ)], [2]] = RNNOut.seq [[(1 : ℚ)], [2]] ∧
    rnnC2.call idExp [[(2 : ℚ)], [1]] = RNNOut.seq [[(2 : ℚ)], [1]] ∧
    biC2.call idExp [[(1 : ℚ)], [2]] =
      .ok (.pair [[(2 : ℚ)], [1]] [[(1 : ℚ)], [2]]) ∧
    (Except.ok (BiOut.pair [[(2 : ℚ)], [1]] [[(1 : ℚ)], [2]]) :
        Except String BiOut) ≠
      Except.ok (BiOut.pair [[(1 : ℚ)], [2]]
        ([[(2 : ℚ)], [1]] : List Vec).reverse) := by
  refine ⟨?_, ?_, ?_, ?_⟩
  · norm_num [RNN.call, RNN.callState, RNN.step, rnnC2, idAct, idExp,
      vecAdd, vecMatMul, matColumn, dot, zeros, rangeOne]
  · norm_num [RNN.call, RNN.callState, RNN.step, rnnC2, idAct, idExp,
      vecAdd, vecMatMul, matColumn, dot, zeros, rangeOne]
  · norm_num [BiDirectional.call, BiDirectional.passStates, biC2, statesOf,
      RNN.call, RNN.callState, RNN.step, rnnC2, idAct, idExp,
      vecAdd, vecMatMul, matColumn, dot, zeros, rangeOne]
    rfl
  · norm_num

/-- C2 (amended): the wrapper reverses BOTH the forward and the backward
pass's state sequences (so the forward sequence is not left in original
time order), and then merges the two same-shaped sequences position-wise
according to the merge mode. -/
theorem C2_amended_both_sequences_reversed (cell : RNN) (mm : Option String)
    (bi : BiDirectional) (hmk : BiDirectional.mk' cell mm = .ok bi)
    (hrs : cell.returnStates = true) (exp : ℚ → ℚ) (inputs : List Vec) :
    bi.passStates exp inputs =
      (((cell.callState exp inputs).2.2).reverse,
       ((cell.callState exp inputs.reverse).2.2).reverse) ∧
    (mm = some ("concat") → bi.call exp inputs =
      .ok (.seq (List.zipWith (fun a b => a ++ b)
        (bi.passStates exp inputs).1 (bi.passStates exp inputs).2))) ∧
    (mm = some ("sum") → bi.call exp inputs =
      .ok (.seq (List.zipWith vecAdd (bi.passStates exp inputs).1
        (bi.passStates exp inputs).2))) ∧
    (mm = some ("ave") → bi.call exp inputs =
      .ok (.seq (List.zipWith (fun a b => (vecAdd a b).map (fun x => x / 2))
        (bi.passStates exp inputs).1 (bi.passStates exp inputs).2))) ∧
    (mm = some ("mul") → bi.call exp inputs =
      .ok (.seq (List.zipWith vecMul (bi.passStates exp inputs).1
        (bi.passStates exp inputs).2))) ∧
    (mm = none → bi.call exp inputs =
      .ok (.pair (bi.passStates exp inputs).1
        (bi.passStates exp inputs).2)) := by
  obtain ⟨hmem, hcell, hmmEq, hro, hrsEq⟩ := mk'_inversion cell mm bi hmk
  have hbrs : bi.returnStates = true := hrsEq.trans hrs
  refine ⟨passStates_eq bi cell hcell hrs exp inputs, ?_, ?_, ?_, ?_, ?_⟩ <;>
    intro h <;> subst h <;> simp [BiDirectional.call, hbrs, hmmEq]

/-- Witness for C2 (amended) on a concrete two-step input with
`merge_mode=None`. -/
theorem C2_amended_witness :
    biC2.passStates idExp [[(1 : ℚ)], [2]] =
      (((rnnC2.callState idExp [[(1 : ℚ)], [2]]).2.2).reverse,
       ((rnnC2.callState idExp
          ([[(1 : ℚ)], [2]] : List Vec).reverse).2.2).reverse) ∧
    biC2.call idExp [[(1 : ℚ)], [2]] =
      .ok (.pair (biC2.passStates idExp [[(1 : ℚ)], [2]]).1
        (biC2.passStates idExp [[(1 : ℚ)], [2]]).2) :=
  ⟨(C2_amended_both_sequences_reversed rnnC2 none biC2 rfl rfl idExp
      [[(1 : ℚ)], [2]]).1,
   (C2_amended_both_sequences_reversed rnnC2 none biC2 rfl rfl idExp
      [[(1 : ℚ)], [2]]).2.2.2.2.2 rfl⟩

/-- C7: with inner hidden width `H`, both merged pass sequences have the
input's length and width-`H` elements; `concat` merges to width `2H` by
per-step concatenation, `sum`/`ave`/`mul` merge element-wise to width
`H`, and `none` returns the unmerged pair. -/
theorem C7_merge_widths (cell : RNN) (mm : Option String) (bi : BiDirectional)
    (hmk : BiDirectional.mk' cell mm = .ok bi)
    (f : Vec → Vec) (hact : cell.activation = some f)
    (hf : ∀ v, (f v).length = v.length)
    (hrs : cell.returnStates = true)
    (hU : (cell.U.headD []).length = cell.kernelDim)
    (hW : (cell.W.headD []).length = cell.kernelDim)
    (hb : cell.useBias = true → cell.b.length = cell.kernelDim)
    (exp : ℚ → ℚ) (inputs : List Vec) :
    ((bi.passStates exp inputs).1.length = inputs.length ∧
     (bi.passStates exp inputs).2.length = inputs.length) ∧
    ((∀ v ∈ (bi.passStates exp inputs).1, v.length = cell.kernelDim) ∧
     (∀ v ∈ (bi.passStates exp inputs).2, v.length = cell.kernelDim)) ∧
    (mm = some ("concat") →
      bi.call exp inputs = .ok (.seq (List.zipWith (fun a b => a ++ b)
        (bi.passStates exp inputs).1 (bi.passStates exp inputs).2)) ∧
      ∀ v ∈ List.zipWith (fun a b => a ++ b) (bi.passStates exp inputs).1
          (bi.passStates exp inputs).2, v.length = 2 * cell.kernelDim) ∧
    (mm = some ("sum") →
      bi.call exp inputs = .ok (.seq (List.zipWith vecAdd
        (bi.passStates exp inputs).1 (bi.passStates exp inputs).2)) ∧
      ∀ v ∈ List.zipWith vecAdd (bi.passStates exp inputs).1
          (bi.passStates exp inputs).2, v.length = cell.kernelDim) ∧
    (mm = some ("ave") →
      bi.call exp inputs = .ok (.seq (List.zipWith
        (fun a b => (vecAdd a b).map (fun x => x / 2))
        (bi.passStates exp inputs).1 (bi.passStates exp inputs).2)) ∧
      ∀ v ∈ List.zipWith (fun a b => (vecAdd a b).map (fun x => x / 2))
          (bi.passStates exp inputs).1 (bi.passStates exp inputs).2,
        v.length = cell.kernelDim) ∧
    (mm = some ("mul") →
      bi.call exp inputs = .ok (.seq (List.zipWith vecMul
        (bi.passStates exp inputs).1 (bi.passStates exp inputs).2)) ∧
      ∀ v ∈ List.zipWith vecMul (bi.passStates exp inputs).1
          (bi.passStates exp inputs).2, v.length = cell.kernelDim) ∧
    (mm = none →
      bi.call exp inputs = .ok (.pair (bi.passStates exp inputs).1
        (bi.passStates exp inputs).2)) := by
  obtain ⟨hmem, hcell, hmmEq, hro, hrsEq⟩ := mk'_inversion cell mm bi hmk
  have hbrs : bi.returnStates = true := hrsEq.trans hrs
  have hps := passStates_eq bi cell hcell hrs exp inputs
  have hfw := callState_snd_snd cell f exp hact inputs
  have hbw := callState_snd_snd cell f exp hact inputs.reverse
  have hlen1 : (bi.passStates exp inputs).1.length = inputs.length := by
    rw [hps]
    simp [hfw, specStates_length]
  have hlen2 : (bi.passStates exp inputs).2.length = inputs.length := by
    rw [hps]
    simp [hbw, specStates_length]
  have hw1 : ∀ v ∈ (bi.passStates exp inputs).1,
      v.length = cell.kernelDim := by
    rw [hps]
    intro v hv
    simp only [List.mem_reverse] at hv
    rw [hfw] at hv
    exact specStates_width cell f hf hU hW hb inputs _ v hv
  have hw2 : ∀ v ∈ (bi.passStates exp inputs).2,
      v.length = cell.kernelDim := by
    rw [hps]
    intro v hv
    simp only [List.mem_reverse] at hv
    rw [hbw] at hv
    exact specStates_width cell f hf hU hW hb inputs.reverse _ v hv
  refine ⟨⟨hlen1, hlen2⟩, ⟨hw1, hw2⟩, ?_, ?_, ?_, ?_, ?_⟩
  · intro h; subst h
    refine ⟨by simp [BiDirectional.call, hbrs, hmmEq], ?_⟩
    intro v hv
    obtain ⟨a, b, ha, hb', hveq⟩ := mem_zipWith_exists _ _ _ v hv
    subst hveq
    simp [hw1 a ha, hw2 b hb', two_mul]
  · intro h; subst h
    refine ⟨by simp [BiDirectional.call, hbrs, hmmEq], ?_⟩
    intro v hv
    obtain ⟨a, b, ha, hb', hveq⟩ := mem_zipWith_exists _ _ _ v hv
    subst hveq
    rw [vecAdd_length, hw1 a ha, hw2 b hb', min_self]
  · intro h; subst h
    refine ⟨by simp [BiDirectional.call, hbrs, hmmEq], ?_⟩
    intro v hv
    obtain ⟨a, b, ha, hb', hveq⟩ := mem_zipWith_exists _ _ _ v hv
    subst hveq
    rw [List.length_map, vecAdd_length, hw1 a ha, hw2 b hb', min_self]
  · intro h; subst h
    refine ⟨by simp [BiDirectional.call, hbrs, hmmEq], ?_⟩
    intro v hv
    obtain ⟨a, b, ha, hb', hveq⟩ := mem_zipWith_exists _ _ _ v hv
    subst hveq
    rw [vecMul_length, hw1 a ha, hw2 b hb', min_self]
  · intro h; subst h
    simp [BiDirectional.call, hbrs, hmmEq]

/-- Witness for C7 at a concrete `merge_mode="sum"` wrapper. -/
theorem C7_witness :
    ((biC7.passStates idExp [[(1 : ℚ)]]).1.length = [[(1 : ℚ)]].length ∧
     (biC7.passStates idExp [[(1 : ℚ)]]).2.length = [[(1 : ℚ)]].length) ∧
    biC7.call idExp [[(1 : ℚ)]] =
      .ok (.seq (List.zipWith vecAdd (biC7.passStates idExp [[(1 : ℚ)]]).1
        (biC7.passStates idExp [[(1 : ℚ)]]).2)) :=
  ⟨(C7_merge_widths cellC7 (some ("sum")) biC7 rfl idAct rfl (fun _ => rfl)
      rfl rfl rfl (fun _ => rfl) idExp [[(1 : ℚ)]]).1,
   ((C7_merge_widths cellC7 (some ("sum")) biC7 rfl idAct rfl (fun _ => rfl)
      rfl rfl rfl (fun _ => rfl) idExp [[(1 : ℚ)]]).2.2.2.1 rfl).1⟩

/-- C4: the embedding first coerces the inputs to integer ids, then
produces an output whose shape is the input shape extended by
`(model_dim,)`, in which every output vector is the table row indexed by
the token id scaled element-wise by `model_dim ** 0.5` (the scalar `s`
with `s * s = model_dim`, `0 ≤ s`). -/
theorem C4_embedding_lookup_scale (emb : Embedding) (s : ℚ)
    (inputs : List (List ℚ))
    (htab : emb.embeddings.length = emb.vocabSize)
    (hrows : ∀ r ∈ emb.embeddings, r.length = emb.modelDim)
    (hs : s * s = (emb.modelDim : ℚ)) (hs0 : 0 ≤ s)
    (hvalid : ∀ seq ∈ inputs, ∀ q ∈ seq,
      (cast32 q).toNat < emb.vocabSize) :
    (emb.call s inputs).length = inputs.length ∧
    (∀ i : Nat, ((emb.call s inputs).getD i []).length =
      (inputs.getD i []).length) ∧
    (∀ i j : Nat, i < inputs.length → j < (inputs.getD i []).length →
      ((emb.call s inputs).getD i []).getD j [] =
        (emb.embeddings.getD
          (cast32 ((inputs.getD i []).getD j 0)).toNat []).map
          (fun x => x * s) ∧
      (((emb.call s inputs).getD i []).getD j []).length =
        emb.modelDim) := by
  refine ⟨by simp [Embedding.call], ?_, ?_⟩
  · intro i
    rw [List.getD_eq_getElem?_getD, List.getD_eq_getElem?_getD]
    unfold Embedding.call
    rw [List.getElem?_map]
    cases h : inputs[i]? <;> simp
  · intro i j hi hj
    have hj' : j < inputs[i].length := by
      rwa [List.getD_eq_getElem inputs [] hi] at hj
    have e1 : (emb.call s inputs).getD i [] =
        (inputs[i]).map (fun q =>
          (emb.embeddings.getD (cast32 q).toNat []).map (fun x => x * s)) :=
      getD_map_lt _ inputs i hi []
    have e2 : ((inputs[i]).map (fun q =>
        (emb.embeddings.getD (cast32 q).toNat []).map
          (fun x => x * s))).getD j [] =
        (emb.embeddings.getD (cast32 inputs[i][j]).toNat []).map
          (fun x => x * s) :=
      getD_map_lt _ inputs[i] j hj' []
    have e3 : (inputs.getD i []).getD j 0 = inputs[i][j] := by
      rw [List.getD_eq_getElem inputs [] hi,
        List.getD_eq_getElem inputs[i] 0 hj']
    have hq : (cast32 inputs[i][j]).toNat < emb.embeddings.length := by
      rw [htab]
      exact hvalid inputs[i] (List.getElem_mem hi) inputs[i][j]
        (List.getElem_mem hj')
    constructor
    · rw [e1, e2, e3]
    · rw [e1, e2, List.getD_eq_getElem emb.embeddings [] hq,
        List.length_map]
      exact hrows _ (List.getElem_mem hq)

/-- Witness for C4 at `vocab_size=2`, `model_dim=4`, `s=2`, with a
non-integer-typed input `3/2` coerced to id `1`. -/
theorem C4_witness :
    (embC4.call 2 [[0, 3 / 2]]).length = [[(0 : ℚ), 3 / 2]].length ∧
    ((embC4.call 2 [[(0 : ℚ), 3 / 2]]).getD 0 []).getD 1 [] =
      (embC4.embeddings.getD
        (cast32 (([[(0 : ℚ), 3 / 2]].getD 0 []).getD 1 0)).toNat []).map
        (fun x => x * 2) ∧
    (((embC4.call 2 [[(0 : ℚ), 3 / 2]]).getD 0 []).getD 1 []).length =
      embC4.modelDim := by
  have h := C4_embedding_lookup_scale embC4 2 [[0, 3 / 2]] rfl
    (by
      intro r hr
      simp only [embC4, List.mem_cons, List.not_mem_nil, or_false] at hr
      rcases hr with h' | h' <;> subst h' <;> rfl)
    (by norm_num [embC4])
    (by norm_num)
    (by
      intro seq hseq q hq
      simp only [List.mem_cons, List.not_mem_nil, or_false] at hseq
      subst hseq
      simp only [List.mem_cons, List.not_mem_nil, or_false] at hq
      rcases hq with h' | h' <;> subst h' <;> norm_num [cast32, embC4])
  exact ⟨h.1, (h.2.2 0 1 (by norm_num) (by norm_num)).1,
    (h.2.2 0 1 (by norm_num) (by norm_num)).2⟩

end DeepNLP
